import Mathlib

/-!
Verification development for the Elliott Wave analysis engine of the
`elliott-wave-analyzer` repository.  The repository ships the engine's
documentation (README, ADR-001, API.md) and its React frontend; the Python
engine modules themselves (`zigzag.py`, `waves.py`, `fib.py`) are not part of
the available sources, so the engine is modelled here from the specification,
faithfully to its words, and the claims are settled against that model.
All prices are rationals (`ℚ`): the specification's arithmetic is exact and
deterministic, and rationals keep every definition computable and decidable.
-/

namespace ElliottWave

/-- Direction of a pivot: a confirmed local high or a confirmed local low. -/
inductive Dir where
  | high
  | low
deriving DecidableEq, Repr

/-- The opposite direction. -/
def Dir.opp : Dir → Dir
  | .high => .low
  | .low => .high

/-- Modelled from the spec: a price bar
`{timestamp (monotonic, unique), open, high, low, close, volume(optional, unused)}`.
Timestamps are abstracted as naturals; `open` is spelled `bopen` because
`open` is a Lean keyword.  The volume field is omitted: the spec marks it
optional and unused by the core. -/
structure Bar where
  timestamp : Nat
  bopen : ℚ
  bhigh : ℚ
  blow : ℚ
  close : ℚ
deriving DecidableEq, Repr

/-- Modelled from the spec: a pivot
`{index (position in the bar sequence), timestamp, price, direction}`. -/
structure Pivot where
  index : Nat
  timestamp : Nat
  price : ℚ
  direction : Dir
deriving DecidableEq, Repr

/-- Modelled from the spec (§7): the engine's typed error kinds. -/
inductive EwError where
  | InsufficientData
  | InvalidThreshold
  | MalformedSeries
deriving DecidableEq, Repr

/-- Running candidate-extreme tracker of the pivot detector (§4.1): one
`(value, index, direction)` accumulator threaded through a left-to-right fold
over the bars, plus the timestamp of the tracked extreme. -/
structure ZigState where
  dir : Dir
  extremeVal : ℚ
  extremeIdx : Nat
  extremeTs : Nat
deriving DecidableEq, Repr

/-- Modelled from the spec (§4.1): one step of the pivot detector's fold.
If the close extends the current extreme, the extreme is updated in place; if
price has reversed from the extreme by `|price − extreme| / extreme * 100 ≥
pct`, the extreme is confirmed and emitted as a Pivot and the detector starts
tracking the opposite extreme from the reversal point.  Closing prices are
used throughout (the spec offers `close (or high/low, per direction)`). -/
def zigzagStep (pct : ℚ) (acc : List Pivot × ZigState) (b : Nat × Bar) :
    List Pivot × ZigState :=
  let (pivots, st) := acc
  let (i, bar) := b
  let price := bar.close
  match st.dir with
  | .high =>
      if st.extremeVal ≤ price then
        (pivots, ⟨.high, price, i, bar.timestamp⟩)
      else if (st.extremeVal - price) / st.extremeVal * 100 ≥ pct then
        (pivots ++ [⟨st.extremeIdx, st.extremeTs, st.extremeVal, .high⟩],
         ⟨.low, price, i, bar.timestamp⟩)
      else
        (pivots, st)
  | .low =>
      if price ≤ st.extremeVal then
        (pivots, ⟨.low, price, i, bar.timestamp⟩)
      else if (price - st.extremeVal) / st.extremeVal * 100 ≥ pct then
        (pivots ++ [⟨st.extremeIdx, st.extremeTs, st.extremeVal, .low⟩],
         ⟨.high, price, i, bar.timestamp⟩)
      else
        (pivots, st)

/-- Modelled from the spec (§4.1): the single forward pass of the pivot
detector over the bar sequence.  The first bar seeds the candidate extreme
(initially tracked as a prospective high — the spec leaves the seed direction
open); the unconfirmed trailing extreme at end-of-series is never emitted
(the spec's conservative policy). -/
def zigzagRun (bars : List Bar) (pct : ℚ) : List Pivot :=
  match bars with
  | [] => []
  | b0 :: rest =>
      ((rest.enumFrom 1).foldl (zigzagStep pct)
        ([], ⟨.high, b0.close, 0, b0.timestamp⟩)).1

/-- Modelled from the spec (§4.1): `detect_pivots(bars, pct) → pivots`.
Fails with `InsufficientData` if fewer than 2 bars; fails with
`InvalidThreshold` if `pct` is outside `(0,100]`; otherwise runs the single
pass.  The checks are made in the order the spec states them. -/
def detect_pivots (bars : List Bar) (pct : ℚ) : Except EwError (List Pivot) :=
  if bars.length < 2 then .error .InsufficientData
  else if pct ≤ 0 ∨ 100 < pct then .error .InvalidThreshold
  else .ok (zigzagRun bars pct)

/-- Two consecutive pivots never share a direction. -/
def Alternates (ps : List Pivot) : Prop :=
  List.Chain' (fun a b => a.direction ≠ b.direction) ps

instance : DecidablePred Alternates := fun ps => by
  unfold Alternates
  infer_instance

/-- The two fixed pattern templates (§4.2). -/
inductive PatternType where
  | impulse
  | corrective
deriving DecidableEq, Repr

/-- Modelled from the spec (§4.2): an impulse candidate is a window of six
consecutive pivots defining legs 1–5. -/
structure ImpulseCandidate where
  p0 : Pivot
  p1 : Pivot
  p2 : Pivot
  p3 : Pivot
  p4 : Pivot
  p5 : Pivot
deriving DecidableEq, Repr

/-- Modelled from the spec (§4.2): a corrective candidate is a window of four
consecutive pivots defining legs A–C. -/
structure CorrectiveCandidate where
  p0 : Pivot
  p1 : Pivot
  p2 : Pivot
  p3 : Pivot
deriving DecidableEq, Repr

namespace ImpulseCandidate

/-- Signed magnitude of Wave 1. -/
def leg1 (c : ImpulseCandidate) : ℚ := c.p1.price - c.p0.price

/-- Signed magnitude of Wave 2. -/
def leg2 (c : ImpulseCandidate) : ℚ := c.p2.price - c.p1.price

/-- Signed magnitude of Wave 3. -/
def leg3 (c : ImpulseCandidate) : ℚ := c.p3.price - c.p2.price

/-- Signed magnitude of Wave 4. -/
def leg4 (c : ImpulseCandidate) : ℚ := c.p4.price - c.p3.price

/-- Signed magnitude of Wave 5. -/
def leg5 (c : ImpulseCandidate) : ℚ := c.p5.price - c.p4.price

/-- A bullish (upward) impulse starts from a low pivot; a bearish one from a
high pivot. -/
def bullish (c : ImpulseCandidate) : Prop := c.p0.direction = Dir.low

instance (c : ImpulseCandidate) : Decidable c.bullish := by
  unfold bullish
  infer_instance

/-- Template alternation: the six directions strictly alternate, which is
exactly the bullish or the bearish orientation of the template. -/
def shapeOk (c : ImpulseCandidate) : Prop :=
  c.p1.direction = c.p0.direction.opp ∧ c.p2.direction = c.p1.direction.opp ∧
  c.p3.direction = c.p2.direction.opp ∧ c.p4.direction = c.p3.direction.opp ∧
  c.p5.direction = c.p4.direction.opp

instance (c : ImpulseCandidate) : Decidable c.shapeOk := by
  unfold shapeOk
  infer_instance

/-- Hard rule (§4.2): Wave 2 must retrace strictly less than 100% of Wave 1,
`|leg2| / |leg1| < 1.0`. -/
def wave2Rule (c : ImpulseCandidate) : Prop := |c.leg2| / |c.leg1| < 1

/-- Hard rule (§4.2): Wave 3 must not be the shortest of legs {1,3,5} by
absolute magnitude. -/
def wave3Rule (c : ImpulseCandidate) : Prop :=
  ¬(|c.leg3| < |c.leg1| ∧ |c.leg3| < |c.leg5|)

/-- Hard rule (§4.2): Wave 4 must not enter Wave 1's price territory: for a
bullish impulse the low of leg 4 stays strictly above the high of leg 1;
mirrored for bearish. -/
def wave4Rule (c : ImpulseCandidate) : Prop :=
  if c.bullish then
    max c.p0.price c.p1.price < min c.p3.price c.p4.price
  else
    max c.p3.price c.p4.price < min c.p0.price c.p1.price

instance (c : ImpulseCandidate) : Decidable c.wave2Rule := by
  unfold wave2Rule
  infer_instance

instance (c : ImpulseCandidate) : Decidable c.wave3Rule := by
  unfold wave3Rule
  infer_instance

instance (c : ImpulseCandidate) : Decidable c.wave4Rule := by
  unfold wave4Rule
  infer_instance

/-- All three hard structural rules. -/
def hardRulesOk (c : ImpulseCandidate) : Prop :=
  c.wave2Rule ∧ c.wave3Rule ∧ c.wave4Rule

instance (c : ImpulseCandidate) : Decidable c.hardRulesOk := by
  unfold hardRulesOk
  infer_instance

end ImpulseCandidate

namespace CorrectiveCandidate

/-- Signed magnitude of Wave A. -/
def legA (c : CorrectiveCandidate) : ℚ := c.p1.price - c.p0.price

/-- Signed magnitude of Wave B. -/
def legB (c : CorrectiveCandidate) : ℚ := c.p2.price - c.p1.price

/-- Signed magnitude of Wave C. -/
def legC (c : CorrectiveCandidate) : ℚ := c.p3.price - c.p2.price

/-- Template alternation of the four directions. -/
def shapeOk (c : CorrectiveCandidate) : Prop :=
  c.p1.direction = c.p0.direction.opp ∧ c.p2.direction = c.p1.direction.opp ∧
  c.p3.direction = c.p2.direction.opp

instance (c : CorrectiveCandidate) : Decidable c.shapeOk := by
  unfold shapeOk
  infer_instance

end CorrectiveCandidate

/-- All windows of six consecutive elements of a list, in order. -/
def windows6 : List Pivot → List ImpulseCandidate
  | [] => []
  | a :: rest =>
      (match rest with
       | b :: c :: d :: e :: f :: _ => [ImpulseCandidate.mk a b c d e f]
       | _ => []) ++ windows6 rest

/-- All windows of four consecutive elements of a list, in order. -/
def windows4 : List Pivot → List CorrectiveCandidate
  | [] => []
  | a :: rest =>
      (match rest with
       | b :: c :: d :: _ => [CorrectiveCandidate.mk a b c d]
       | _ => []) ++ windows4 rest

/-- Modelled from the spec (§4.2): the impulse half of the Candidate
Enumerator.  Every contiguous window of six pivots whose directions match the
template's expected alternation becomes a candidate; the hard, non-negotiable
structural rules are applied as a filter, so candidates violating any rule
are discarded, not scored. -/
def enumImpulse (ps : List Pivot) : List ImpulseCandidate :=
  (windows6 ps).filter fun c => decide c.shapeOk && decide c.hardRulesOk

/-- Modelled from the spec (§4.2): the corrective half of the Candidate
Enumerator.  Every contiguous window of four pivots whose directions match
the template's expected alternation becomes a candidate; the spec states no
hard structural rules for the corrective template (B/A and C/A conformance
are soft penalties of §4.4). -/
def enumCorrective (ps : List Pivot) : List CorrectiveCandidate :=
  (windows4 ps).filter fun c => decide c.shapeOk

/-- Kind of a Fibonacci level (§3). -/
inductive FibKind where
  | retracement
  | extension
deriving DecidableEq, Repr

/-- Modelled from the spec (§3): `{ratio, price, label, kind}`; the output
contract (§6) exposes the ratio as `level`. -/
structure FibLevel where
  level : ℚ
  price : ℚ
  label : String
  kind : FibKind
deriving DecidableEq, Repr

/-- Retracement ratio table with display labels (§4.3, README). -/
def retracementTable : List (ℚ × String) :=
  [(0.236, "23.6% Retracement"), (0.382, "38.2% Retracement"),
   (0.5, "50% Retracement"), (0.618, "61.8% Retracement"),
   (0.786, "78.6% Retracement")]

/-- Extension ratio table with display labels (§4.3, README). -/
def extensionTable : List (ℚ × String) :=
  [(1, "100% Extension"), (1.272, "127.2% Extension"),
   (1.618, "161.8% Extension"), (2, "200% Extension"),
   (2.618, "261.8% Extension")]

/-- Modelled from the spec (§4.3): retracement levels anchored on the leg
being retraced, `price = anchorEnd − ratio * (anchorEnd − anchorStart)`. -/
def retracementsFor (anchorStart anchorEnd : ℚ) : List FibLevel :=
  retracementTable.map fun rl =>
    ⟨rl.1, anchorEnd - rl.1 * (anchorEnd - anchorStart), rl.2, .retracement⟩

/-- Modelled from the spec (§4.3): extension levels projected from a base leg
onto a subsequent leg's origin, `price = origin + ratio * baseLength`. -/
def extensionsFor (baseLength origin : ℚ) : List FibLevel :=
  extensionTable.map fun rl =>
    ⟨rl.1, origin + rl.1 * baseLength, rl.2, .extension⟩

/-- Clamp a value into `[lo, hi]`. -/
def clamp (lo hi x : ℚ) : ℚ := max lo (min hi x)

/-- Modelled from the spec (§4.3): per-ratio error
`min_over_ideals(|observed − ideal| / ideal)`, clamped to `[0,1]`.  The fold
over the ideal set starts at 1, which coincides with the upper clamp. -/
def ratioError (observed : ℚ) (ideals : List ℚ) : ℚ :=
  clamp 0 1 ((ideals.map fun i => |observed - i| / i).foldl min 1)

/-- Documented ideal set for Wave2/Wave1 (§4.3, ADR-001). -/
def idealsW2 : List ℚ := [0.382, 0.5, 0.618]

/-- Documented ideal set for Wave3/Wave1 (ADR-001). -/
def idealsW3 : List ℚ := [1, 1.618, 2.618]

/-- Documented ideal set for Wave4/Wave3 (ADR-001). -/
def idealsW4 : List ℚ := [0.236, 0.382, 0.5]

/-- Documented ideal set for Wave5/Wave1 (ADR-001). -/
def idealsW5 : List ℚ := [0.618, 1, 1.618]

/-- A candidate of either template, as the tagged variant the spec's design
notes prescribe (§9). -/
inductive Candidate where
  | imp (c : ImpulseCandidate)
  | cor (c : CorrectiveCandidate)
deriving DecidableEq, Repr

/-- Pattern type of a candidate. -/
def Candidate.ptype : Candidate → PatternType
  | .imp _ => .impulse
  | .cor _ => .corrective

/-- Modelled from the spec (§4.3): `mean_fibonacci_error` is the mean of the
four rule-bearing ratio errors for an impulse (Wave2/Wave1, Wave3/Wave1,
Wave4/Wave3, Wave5/Wave1) and of the analogous set for a corrective pattern;
the corrective set is not spelled out by the spec and is modelled as
WaveB/WaveA against the Wave-2 ideals and WaveC/WaveA against {1, 1.618}. -/
def meanFibError : Candidate → ℚ
  | .imp c =>
      (ratioError (|c.leg2| / |c.leg1|) idealsW2 +
       ratioError (|c.leg3| / |c.leg1|) idealsW3 +
       ratioError (|c.leg4| / |c.leg3|) idealsW4 +
       ratioError (|c.leg5| / |c.leg1|) idealsW5) / 4
  | .cor c =>
      (ratioError (|c.legB| / |c.legA|) idealsW2 +
       ratioError (|c.legC| / |c.legA|) [1, 1.618]) / 2

/-- Modelled from the spec (§4.4): the soft rule penalty, 0–100 capped.
Wave B retracing outside `[0.30, 0.90]` of Wave A adds 20; Wave C/Wave A
outside `[0.7, 1.8]` adds 15; impulse hard-rule violations contribute 0
because such candidates were already excluded by the enumerator. -/
def rulePenalty : Candidate → ℚ
  | .imp _ => 0
  | .cor c =>
      let rB := |c.legB| / |c.legA|
      let rC := |c.legC| / |c.legA|
      min 100 ((if rB < 0.3 ∨ 0.9 < rB then 20 else 0) +
               (if rC < 0.7 ∨ 1.8 < rC then 15 else 0))

/-- Price of the straight line through `(x1,y1)` and `(x2,y2)` at `x`,
used as the projected trend channel. -/
def lineValueAt (x1 y1 x2 y2 x : ℚ) : ℚ :=
  y1 + (y2 - y1) * (x - x1) / (x2 - x1)

/-- Absolute leg magnitudes of a candidate. -/
def legMags : Candidate → List ℚ
  | .imp c => [|c.leg1|, |c.leg2|, |c.leg3|, |c.leg4|, |c.leg5|]
  | .cor c => [|c.legA|, |c.legB|, |c.legC|]

/-- Mean absolute leg magnitude of the pattern. -/
def meanLegMag (c : Candidate) : ℚ :=
  (legMags c).sum / (legMags c).length

/-- Modelled from the spec (§4.4): project a line through the endpoints of
legs 1 and 3 (A and C for corrective), take the deviation of the terminal
pivot of leg 5 (C) from that line, normalize by the mean leg amplitude, and
set `channel_score = max(0, 100 − 100 * normalized_distance)`.  Following
ADR-001's note that channel adherence is "simplified to basic trend line
analysis", the deviation is measured vertically at the terminal pivot's
index. -/
def channelScore (cand : Candidate) : ℚ :=
  let devia :=
    match cand with
    | .imp c =>
        |c.p5.price - lineValueAt c.p1.index c.p1.price c.p3.index c.p3.price
          c.p5.index|
    | .cor c =>
        |c.p3.price - lineValueAt c.p1.index c.p1.price c.p3.index c.p3.price
          c.p3.index|
  max 0 (100 - 100 * (devia / meanLegMag cand))

/-- Modelled from the spec (§4.4): for any leg whose magnitude is outside
`[0.2×, 5×]` the pattern's mean leg magnitude, add a penalty proportional to
the excess ratio; capped to `[0,100]`.  The proportionality constant is not
fixed by the spec and is modelled as 20 per unit of excess ratio. -/
def proportionPenalty (cand : Candidate) : ℚ :=
  let m := meanLegMag cand
  let excess := fun l => max 0 (l / m - 5) + max 0 (0.2 - l / m)
  min 100 (20 * ((legMags cand).map excess).sum)

/-- Modelled from the spec (§3): the scoring breakdown. -/
structure ScoreBreakdown where
  mean_fibonacci_error : ℚ
  rule_penalty : ℚ
  channel_score : ℚ
  proportion_penalty : ℚ
  total : ℚ
deriving DecidableEq, Repr

/-- Modelled from the spec (§4.4): the Scoring Engine, a pure deterministic
function `(candidate, mean_fibonacci_error) → ScoreBreakdown` with
`total = clamp(0,100, 100 − (0.4*100*mean_fibonacci_error + 0.3*rule_penalty
+ 0.2*(100−channel_score) + 0.1*proportion_penalty))`. -/
def scoreCandidate (cand : Candidate) (mfe : ℚ) : ScoreBreakdown :=
  let rp := rulePenalty cand
  let cs := channelScore cand
  let pp := proportionPenalty cand
  { mean_fibonacci_error := mfe
    rule_penalty := rp
    channel_score := cs
    proportion_penalty := pp
    total := clamp 0 100
      (100 - (0.4 * 100 * mfe + 0.3 * rp + 0.2 * (100 - cs) + 0.1 * pp)) }

/-- First pivot of a candidate. -/
def Candidate.startPivot : Candidate → Pivot
  | .imp c => c.p0
  | .cor c => c.p0

/-- Last pivot of a candidate. -/
def Candidate.endPivot : Candidate → Pivot
  | .imp c => c.p5
  | .cor c => c.p3

/-- A scored candidate as seen by the Count Selector (§4.5): the candidate,
its total score, its starting pivot index, and its span in bar indices. -/
structure ScoredCand where
  cand : Candidate
  score : ℚ
  startIdx : Nat
  span : Nat
deriving DecidableEq, Repr

/-- Modelled from the spec (§4.5): the selector's strict preference order —
`a` beats `b` when it has the strictly higher total score, or an equal score
and a strictly lower starting pivot index, or equal score and start and a
strictly shorter span. -/
def Better (a b : ScoredCand) : Prop :=
  b.score < a.score ∨
    (a.score = b.score ∧
      (a.startIdx < b.startIdx ∨
        (a.startIdx = b.startIdx ∧ a.span < b.span)))

instance (a b : ScoredCand) : Decidable (Better a b) := by
  unfold Better
  infer_instance

/-- Modelled from the spec (§4.5): pick the best-ranked candidate of a list
under `Better`, keeping the earlier element on full ties. -/
def pickBest : List ScoredCand → Option ScoredCand
  | [] => none
  | c :: rest => some (rest.foldl (fun best x => if Better x best then x else best) c)

/-- Modelled from the spec (§4.5): the Alternate is the best candidate of the
other pattern type from the Primary if one exists, else the best candidate of
the same type with a different starting index, else nothing (rendered as the
explicit empty WaveCount by the assembler). -/
def pickAlternate (scored : List ScoredCand) (p : ScoredCand) :
    Option ScoredCand :=
  match pickBest (scored.filter fun c => decide (c.cand.ptype ≠ p.cand.ptype)) with
  | some a => some a
  | none =>
      pickBest (scored.filter fun c =>
        decide (c.cand.ptype = p.cand.ptype ∧ c.startIdx ≠ p.startIdx))

/-- Modelled from the spec (§3, §6): the invalidation level,
`{price, reason}`. -/
structure Invalidation where
  price : ℚ
  reason : String
deriving DecidableEq, Repr

/-- Modelled from the spec (§3, §6): one output wave count. -/
structure WaveCount where
  labels : List (Nat × String)
  fib_retracements : List FibLevel
  fib_extensions : List FibLevel
  invalidation : Invalidation
  score : ℚ
  summary : String
deriving DecidableEq, Repr

/-- Modelled from the spec (§3): the final analysis result. -/
structure AnalysisResult where
  primary : WaveCount
  alternate : WaveCount
  pivots : List Pivot
deriving DecidableEq, Repr

/-- Modelled from the spec (§4.5): the templated invalidation sentence names
the direction ("below"/"above") and the originating wave. -/
def invalReason (t : PatternType) (isBullish : Bool) : String :=
  match t, isBullish with
  | .impulse, true => "Invalidation below Wave 1 start"
  | .impulse, false => "Invalidation above Wave 1 start"
  | .corrective, true => "Invalidation below Wave A start"
  | .corrective, false => "Invalidation above Wave A start"

/-- Modelled from the spec (§4.5): the deterministic templated summary names
the pattern shape and the terminal leg price. -/
def summaryText (t : PatternType) (terminal : ℚ) : String :=
  match t with
  | .impulse => "5-wave impulse structure with Wave 5 at " ++ toString terminal
  | .corrective => "3-wave corrective ABC structure with Wave C at " ++ toString terminal

/-- Modelled from the spec (§4.3, §4.5): assemble the output WaveCount of a
scored candidate — wave labels at the pivots ending each leg, Fibonacci
retracements anchored on Wave 1 (Wave A) and Wave 3, extensions of the first
leg projected from the third (C) leg's origin, invalidation at the origin
pivot of the pattern's first leg, and the templated summary. -/
def toWaveCount (s : ScoredCand) : WaveCount :=
  match s.cand with
  | .imp c =>
      { labels := [(c.p1.index, "1"), (c.p2.index, "2"), (c.p3.index, "3"),
                   (c.p4.index, "4"), (c.p5.index, "5")]
        fib_retracements :=
          retracementsFor c.p0.price c.p1.price ++
          retracementsFor c.p2.price c.p3.price
        fib_extensions := extensionsFor c.leg1 c.p2.price
        invalidation := ⟨c.p0.price, invalReason .impulse (decide c.bullish)⟩
        score := s.score
        summary := summaryText .impulse c.p5.price }
  | .cor c =>
      { labels := [(c.p1.index, "A"), (c.p2.index, "B"), (c.p3.index, "C")]
        fib_retracements := retracementsFor c.p0.price c.p1.price
        fib_extensions := extensionsFor c.legA c.p2.price
        invalidation := ⟨c.p0.price, invalReason .corrective (decide (c.p0.direction = Dir.low))⟩
        score := s.score
        summary := summaryText .corrective c.p3.price }

/-- Modelled from the spec (§4.5, §7): the explicit empty WaveCount used when
no pattern at all is found — score 0, no labels, no Fibonacci levels, an
explanatory summary. -/
def noPatternCount : WaveCount :=
  { labels := []
    fib_retracements := []
    fib_extensions := []
    invalidation := ⟨0, "No pattern detected; nothing to invalidate"⟩
    score := 0
    summary := "No Elliott Wave pattern found" }

/-- Modelled from the spec (§4.5): the explicit empty WaveCount used when no
alternate interpretation exists — `labels=[]`, `fib_retracements=[]`,
`fib_extensions=[]`, `score=0`, templated summary; never an absent or null
field. -/
def noAlternateCount : WaveCount :=
  { labels := []
    fib_retracements := []
    fib_extensions := []
    invalidation := ⟨0, "No alternate pattern; nothing to invalidate"⟩
    score := 0
    summary := "No alternate interpretation was found" }

/-- Score a candidate end to end: the Fibonacci Calculator supplies
`mean_fibonacci_error`, the Scoring Engine the total. -/
def toScored (c : Candidate) : ScoredCand :=
  { cand := c
    score := (scoreCandidate c (meanFibError c)).total
    startIdx := c.startPivot.index
    span := c.endPivot.index - c.startPivot.index }

/-- All scored candidates of a pivot sequence, impulse and corrective. -/
def scoredCandidates (ps : List Pivot) : List ScoredCand :=
  ((enumImpulse ps).map fun c => toScored (.imp c)) ++
  ((enumCorrective ps).map fun c => toScored (.cor c))

/-- Modelled from the spec (§4.5): assemble the final result from the full
pivot sequence and the scored candidate set.  If both candidate sets are
empty the result is the NoPatternFound outcome — a valid result, not an
error. -/
def assembleResult (ps : List Pivot) (scored : List ScoredCand) :
    AnalysisResult :=
  match pickBest scored with
  | none => ⟨noPatternCount, noAlternateCount, ps⟩
  | some p =>
      { primary := toWaveCount p
        alternate := (pickAlternate scored p).elim noAlternateCount toWaveCount
        pivots := ps }

/-- Modelled from the spec (§6): `analyze(bars, pct) → AnalysisResult`, the
full pipeline — pivot detection, candidate enumeration, scoring, selection
and assembly. -/
def analyze (bars : List Bar) (pct : ℚ) : Except EwError AnalysisResult :=
  match detect_pivots bars pct with
  | .error e => .error e
  | .ok ps => .ok (assembleResult ps (scoredCandidates ps))

/-- Concrete input used by witnesses: four bars swinging 100 → 50 → 100 → 60,
far beyond a 10% reversal threshold. -/
def wBarsSwing : List Bar :=
  [⟨0, 100, 100, 100, 100⟩, ⟨1, 50, 50, 50, 50⟩,
   ⟨2, 100, 100, 100, 100⟩, ⟨3, 60, 60, 60, 60⟩]

/-- The pivot sequence the detector produces on `wBarsSwing` at 10%. -/
def wPivotsSwing : List Pivot :=
  [⟨0, 0, 100, .high⟩, ⟨1, 1, 50, .low⟩, ⟨2, 2, 100, .high⟩]

/-- A single-bar series, used to separate the two failure conditions of
`detect_pivots`. -/
def wBar1 : List Bar := [⟨0, 100, 100, 100, 100⟩]

/-- A strictly monotonically rising series whose total move is far below a
50% threshold (spec scenario B). -/
def wBarsRising : List Bar :=
  [⟨0, 100, 100, 100, 100⟩, ⟨1, 101, 101, 101, 101⟩, ⟨2, 102, 102, 102, 102⟩]

/-- Six alternating pivots forming the spec's scenario-A textbook impulse:
Wave 1 100→110, Wave 2 →103.82, Wave 3 →119.94, Wave 4 →113.76,
Wave 5 →123.76. -/
def wPivotsImpulse : List Pivot :=
  [⟨0, 0, 100, .low⟩, ⟨1, 1, 110, .high⟩, ⟨2, 2, 103.82, .low⟩,
   ⟨3, 3, 119.94, .high⟩, ⟨4, 4, 113.76, .low⟩, ⟨5, 5, 123.76, .high⟩]

/-- The impulse candidate over `wPivotsImpulse`. -/
def wImpulseCand : ImpulseCandidate :=
  ⟨⟨0, 0, 100, .low⟩, ⟨1, 1, 110, .high⟩, ⟨2, 2, 103.82, .low⟩,
   ⟨3, 3, 119.94, .high⟩, ⟨4, 4, 113.76, .low⟩, ⟨5, 5, 123.76, .high⟩⟩

/-- A corrective candidate used to exercise the selector. -/
def wCorrCand : CorrectiveCandidate :=
  ⟨⟨6, 6, 100, .high⟩, ⟨7, 7, 90, .low⟩, ⟨8, 8, 95, .high⟩, ⟨9, 9, 85, .low⟩⟩

/-- A concrete scored impulse candidate. -/
def wScoredA : ScoredCand := ⟨.imp wImpulseCand, 80, 0, 5⟩

/-- A concrete scored corrective candidate. -/
def wScoredB : ScoredCand := ⟨.cor wCorrCand, 60, 6, 3⟩

/-- A concrete nonempty scored candidate set. -/
def wScored : List ScoredCand := [wScoredA, wScoredB]

/-- Invariant of the detector's fold: the emitted pivots alternate and the
last emitted pivot's direction is opposite to the currently tracked one. -/
def ZigInv (ps : List Pivot) (st : ZigState) : Prop :=
  Alternates ps ∧ ∀ p, ps.getLast? = some p → p.direction = st.dir.opp

theorem Dir.opp_opp (d : Dir) : d.opp.opp = d := by
  cases d <;> rfl

theorem Dir.opp_ne (d : Dir) : d.opp ≠ d := by
  cases d <;> simp [Dir.opp]

theorem zigzagStep_inv (pct : ℚ) (ps : List Pivot) (st : ZigState)
    (b : Nat × Bar) (h : ZigInv ps st) :
    ZigInv (zigzagStep pct (ps, st) b).1 (zigzagStep pct (ps, st) b).2 := by
  obtain ⟨halt, hlast⟩ := h
  obtain ⟨i, bar⟩ := b
  obtain ⟨d, ev, ei, ets⟩ := st
  cases d with
  | high =>
      simp only [zigzagStep]
      split_ifs with h1 h2
      · exact ⟨halt, fun p hp => hlast p hp⟩
      · constructor
        · refine (List.chain'_append).2 ⟨halt, List.chain'_singleton _, ?_⟩
          intro x hx y hy
          simp only [List.head?_cons, Option.mem_def, Option.some.injEq] at hy
          subst hy
          have hx' := hlast x (Option.mem_def.1 hx)
          simp only [Dir.opp] at hx'
          simp [hx']
        · intro p hp
          rw [List.getLast?_concat] at hp
          cases hp
          rfl
      · exact ⟨halt, fun p hp => hlast p hp⟩
  | low =>
      simp only [zigzagStep]
      split_ifs with h1 h2
      · exact ⟨halt, fun p hp => hlast p hp⟩
      · constructor
        · refine (List.chain'_append).2 ⟨halt, List.chain'_singleton _, ?_⟩
          intro x hx y hy
          simp only [List.head?_cons, Option.mem_def, Option.some.injEq] at hy
          subst hy
          have hx' := hlast x (Option.mem_def.1 hx)
          simp only [Dir.opp] at hx'
          simp [hx']
        · intro p hp
          rw [List.getLast?_concat] at hp
          cases hp
          rfl
      · exact ⟨halt, fun p hp => hlast p hp⟩

theorem zigzagFold_inv (pct : ℚ) (l : List (Nat × Bar)) :
    ∀ ps st, ZigInv ps st →
      ZigInv (l.foldl (zigzagStep pct) (ps, st)).1
        (l.foldl (zigzagStep pct) (ps, st)).2 := by
  induction l with
  | nil => intro ps st h; simpa using h
  | cons b t ih =>
      intro ps st h
      have h' := zigzagStep_inv pct ps st b h
      rcases hstep : zigzagStep pct (ps, st) b with ⟨ps', st'⟩
      rw [hstep] at h'
      simpa [List.foldl_cons, hstep] using ih ps' st' h'

theorem zigzagRun_alternates (bars : List Bar) (pct : ℚ) :
    Alternates (zigzagRun bars pct) := by
  unfold zigzagRun
  cases bars with
  | nil => simp [Alternates]
  | cons b0 rest =>
      exact (zigzagFold_inv pct (rest.enumFrom 1) []
        ⟨.high, b0.close, 0, b0.timestamp⟩
        ⟨by simp [Alternates], by simp⟩).1

/-- C4: for every bar sequence of length ≥ 2 and every threshold in (0,100],
the pivot sequence produced by `detect_pivots` strictly alternates direction:
no two consecutive pivots in the output share a direction. -/
theorem detect_pivots_alternates (bars : List Bar) (pct : ℚ)
    (hlen : 2 ≤ bars.length) (hpos : 0 < pct) (hle : pct ≤ 100) :
    ∀ ps, detect_pivots bars pct = .ok ps → Alternates ps := by
  intro ps h
  unfold detect_pivots at h
  rw [if_neg (by omega), if_neg (by push_neg; exact ⟨hpos, hle⟩)] at h
  cases h
  exact zigzagRun_alternates bars pct

/-- Witness for C4 at the concrete swing series. -/
theorem detect_pivots_alternates_witness : Alternates wPivotsSwing :=
  detect_pivots_alternates wBarsSwing 10 (by norm_num [wBarsSwing])
    (by norm_num) (by norm_num) wPivotsSwing
    (by norm_num [detect_pivots, zigzagRun, zigzagStep, List.enumFrom,
      wBarsSwing, wPivotsSwing])

/-- C2: for every candidate and `mean_fibonacci_error`, the Scoring Engine's
total equals `clamp(0,100, 100 − (0.4*100*mean_fibonacci_error +
0.3*rule_penalty + 0.2*(100−channel_score) + 0.1*proportion_penalty))` over
the components of the returned breakdown — the Fibonacci error term is scaled
by 100 before the 0.4 weight is applied. -/
theorem scoreCandidate_total_formula (cand : Candidate) (mfe : ℚ) :
    (scoreCandidate cand mfe).mean_fibonacci_error = mfe ∧
    (scoreCandidate cand mfe).total =
      clamp 0 100
        (100 - (0.4 * 100 * (scoreCandidate cand mfe).mean_fibonacci_error +
          0.3 * (scoreCandidate cand mfe).rule_penalty +
          0.2 * (100 - (scoreCandidate cand mfe).channel_score) +
          0.1 * (scoreCandidate cand mfe).proportion_penalty)) :=
  ⟨rfl, rfl⟩

/-- C3: the Scoring Engine is total — it is a Lean function, defined on every
candidate and every (even adversarial) `mean_fibonacci_error`, including
zero-length legs, and the rational total it returns always lies within
`[0,100]`. -/
theorem scoreCandidate_total_bounds (cand : Candidate) (mfe : ℚ) :
    0 ≤ (scoreCandidate cand mfe).total ∧
      (scoreCandidate cand mfe).total ≤ 100 :=
  ⟨le_max_left 0 _, max_le (by norm_num) (min_le_left _ _)⟩

/-- C9: the engine is deterministic — on identical inputs, `detect_pivots`
yields identical pivot sequences, scoring yields identical breakdowns, and
`analyze` yields identical results; the model is a pure function of its
arguments. -/
theorem engine_deterministic (bars₁ bars₂ : List Bar) (pct₁ pct₂ : ℚ)
    (hb : bars₁ = bars₂) (hp : pct₁ = pct₂) :
    detect_pivots bars₁ pct₁ = detect_pivots bars₂ pct₂ ∧
    (∀ cand mfe, scoreCandidate cand mfe = scoreCandidate cand mfe) ∧
    analyze bars₁ pct₁ = analyze bars₂ pct₂ := by
  subst hb
  subst hp
  exact ⟨rfl, fun _ _ => rfl, rfl⟩

/-- Witness for C9 at a concrete input. -/
theorem engine_deterministic_witness :
    detect_pivots wBarsSwing 10 = detect_pivots wBarsSwing 10 ∧
    (∀ cand mfe, scoreCandidate cand mfe = scoreCandidate cand mfe) ∧
    analyze wBarsSwing 10 = analyze wBarsSwing 10 :=
  engine_deterministic wBarsSwing wBarsSwing 10 10 rfl rfl

/-- Counterexample to C7 as stated: with a single bar and `pct = 200`,
`detect_pivots` fails with `InsufficientData`, not with `InvalidThreshold`,
even though `pct` is outside `(0,100]` — the two "exactly when" conditions
overlap and the insufficient-data check wins. -/
theorem detect_pivots_threshold_counterexample :
    (100 : ℚ) < 200 ∧
    detect_pivots wBar1 200 = .error .InsufficientData ∧
    detect_pivots wBar1 200 ≠ .error .InvalidThreshold := by
  refine ⟨by norm_num, ?_, ?_⟩ <;> simp [detect_pivots, wBar1]

/-- C7 (amended): `detect_pivots` fails with `InsufficientData` exactly when
the bar sequence has fewer than 2 bars; given at least 2 bars it fails with
`InvalidThreshold` exactly when `pct` is outside `(0,100]`; and every `pct`
in `(0,100]` — including values above the UI's 1–10 range — is accepted:
with at least 2 bars the call succeeds. -/
theorem detect_pivots_error_conditions (bars : List Bar) (pct : ℚ) :
    (detect_pivots bars pct = .error .InsufficientData ↔ bars.length < 2) ∧
    (2 ≤ bars.length →
      (detect_pivots bars pct = .error .InvalidThreshold ↔
        (pct ≤ 0 ∨ 100 < pct))) ∧
    (2 ≤ bars.length → 0 < pct → pct ≤ 100 →
      detect_pivots bars pct = .ok (zigzagRun bars pct)) := by
  unfold detect_pivots
  refine ⟨?_, ?_, ?_⟩
  · split_ifs with h1 h2 <;> simp_all
  · intro hlen
    rw [if_neg (by omega)]
    split_ifs with h2 <;> simp_all
  · intro hlen hpos hle
    rw [if_neg (by omega), if_neg (by push_neg; exact ⟨hpos, hle⟩)]

/-- Witness for C7 (amended) at 2 bars and the out-of-UI-range
threshold 50. -/
theorem detect_pivots_error_conditions_witness :
    detect_pivots wBarsRising 50 = .ok (zigzagRun wBarsRising 50) :=
  (detect_pivots_error_conditions wBarsRising 50).2.2
    (by norm_num [wBarsRising]) (by norm_num) (by norm_num)

/-- C1: every candidate returned by the impulse half of the Candidate
Enumerator, for every pivot sequence, satisfies all three hard impulse
rules — `|leg2|/|leg1| < 1.0`, Wave 3 is not the strict minimum of
{Wave1, Wave3, Wave5} by absolute magnitude, and Wave 4's price range does
not intersect Wave 1's (low of leg 4 strictly above the high of leg 1 for a
bullish impulse, mirrored for bearish); windows violating any rule are
discarded by the filter and never reach scoring. -/
theorem enumImpulse_hard_rules (ps : List Pivot) (c : ImpulseCandidate)
    (hc : c ∈ enumImpulse ps) :
    c.wave2Rule ∧ c.wave3Rule ∧ c.wave4Rule := by
  unfold enumImpulse at hc
  rw [List.mem_filter] at hc
  have h2 := hc.2
  simp only [Bool.and_eq_true, decide_eq_true_eq] at h2
  exact h2.2

/-- Witness for C1 at the scenario-A textbook impulse window. -/
theorem enumImpulse_hard_rules_witness :
    wImpulseCand.wave2Rule ∧ wImpulseCand.wave3Rule ∧ wImpulseCand.wave4Rule :=
  enumImpulse_hard_rules wPivotsImpulse wImpulseCand (by
    unfold enumImpulse
    rw [List.mem_filter]
    refine ⟨by simp [windows6, wPivotsImpulse, wImpulseCand], ?_⟩
    rw [Bool.and_eq_true, decide_eq_true_eq, decide_eq_true_eq]
    constructor
    · simp [ImpulseCandidate.shapeOk, wImpulseCand, Dir.opp]
    · refine ⟨?_, ?_, ?_⟩
      · norm_num [ImpulseCandidate.wave2Rule, ImpulseCandidate.leg1,
          ImpulseCandidate.leg2, wImpulseCand, abs_of_pos]
      · norm_num [ImpulseCandidate.wave3Rule, ImpulseCandidate.leg1,
          ImpulseCandidate.leg3, ImpulseCandidate.leg5, wImpulseCand,
          abs_of_pos]
      · norm_num [ImpulseCandidate.wave4Rule, ImpulseCandidate.bullish,
          wImpulseCand])

theorem better_irrefl (a : ScoredCand) : ¬ Better a a := by
  simp [Better]

theorem better_asymm {a b : ScoredCand} (h : Better a b) : ¬ Better b a := by
  intro h'
  rcases h with h | ⟨he, h⟩ <;> rcases h' with h' | ⟨he', h'⟩
  · exact absurd (h.trans h') (lt_irrefl _)
  · exact absurd h (he' ▸ lt_irrefl _)
  · exact absurd h' (he ▸ lt_irrefl _)
  · rcases h with h | ⟨hs, h⟩ <;> rcases h' with h' | ⟨hs', h'⟩ <;> omega

theorem not_better_unpack {c p : ScoredCand} (h : ¬ Better c p) :
    c.score ≤ p.score ∧ (c.score = p.score → p.startIdx ≤ c.startIdx ∧
      (c.startIdx = p.startIdx → p.span ≤ c.span)) := by
  simp only [Better, not_or, not_and, not_lt] at h
  exact h

theorem not_better_trans {x y z : ScoredCand}
    (h1 : ¬ Better y x) (h2 : ¬ Better z y) : ¬ Better z x := by
  obtain ⟨h1a, h1b⟩ := not_better_unpack h1
  obtain ⟨h2a, h2b⟩ := not_better_unpack h2
  simp only [Better, not_or, not_and, not_lt]
  refine ⟨h2a.trans h1a, fun hzx => ?_⟩
  have hyx : y.score = x.score := le_antisymm h1a (hzx ▸ h2a)
  have hzy : z.score = y.score := hzx.trans hyx.symm
  obtain ⟨hb1, hb2⟩ := h1b hyx
  obtain ⟨hb3, hb4⟩ := h2b hzy
  refine ⟨hb1.trans hb3, fun hsz => ?_⟩
  have hys : y.startIdx = x.startIdx := by omega
  have hzs : z.startIdx = y.startIdx := by omega
  have := hb2 hys
  have := hb4 hzs
  omega

theorem foldlBest_spec (l : List ScoredCand) :
    ∀ b : ScoredCand,
      ((l.foldl (fun best x => if Better x best then x else best) b) = b ∨
        (l.foldl (fun best x => if Better x best then x else best) b) ∈ l) ∧
      ¬ Better b (l.foldl (fun best x => if Better x best then x else best) b) ∧
      ∀ x ∈ l,
        ¬ Better x (l.foldl (fun best x => if Better x best then x else best) b) := by
  induction l with
  | nil => exact fun b => ⟨Or.inl rfl, better_irrefl b, by simp⟩
  | cons c t ih =>
      intro b
      simp only [List.foldl_cons]
      obtain ⟨hmem, hself, hall⟩ := ih (if Better c b then c else b)
      have hbb : ¬ Better b (if Better c b then c else b) := by
        by_cases hc : Better c b
        · rw [if_pos hc]; exact better_asymm hc
        · rw [if_neg hc]; exact better_irrefl b
      have hcb : ¬ Better c (if Better c b then c else b) := by
        by_cases hc : Better c b
        · rw [if_pos hc]; exact better_irrefl c
        · rw [if_neg hc]; exact hc
      refine ⟨?_, not_better_trans hself hbb, ?_⟩
      · rcases hmem with h | h
        · rw [h]
          by_cases hc : Better c b
          · rw [if_pos hc]; exact Or.inr (List.mem_cons_self c t)
          · rw [if_neg hc]; exact Or.inl rfl
        · exact Or.inr (List.mem_cons_of_mem c h)
      · intro x hx
        rcases List.mem_cons.1 hx with rfl | hx'
        · exact not_better_trans hself hcb
        · exact hall x hx'

theorem pickBest_spec (l : List ScoredCand) (r : ScoredCand)
    (h : pickBest l = some r) : r ∈ l ∧ ∀ x ∈ l, ¬ Better x r := by
  cases l with
  | nil => exact absurd h (by simp [pickBest])
  | cons c t =>
      simp only [pickBest, Option.some.injEq] at h
      subst h
      obtain ⟨hmem, hself, hall⟩ := foldlBest_spec t c
      refine ⟨?_, ?_⟩
      · rcases hmem with h | h
        · rw [h]; exact List.mem_cons_self c t
        · exact List.mem_cons_of_mem c h
      · intro x hx
        rcases List.mem_cons.1 hx with rfl | hx'
        · exact hself
        · exact hall x hx'

theorem pickBest_eq_none {l : List ScoredCand} :
    pickBest l = none ↔ l = [] := by
  cases l <;> simp [pickBest]

/-- C5: for every nonempty scored candidate set, the Count Selector chooses
as Primary the candidate with the highest total score across both pattern
types, breaking ties first by lowest starting pivot index and then by
shortest span; the Alternate is a highest-scoring candidate of the other
pattern type if one exists, else a highest-scoring candidate of the same
type with a different starting index, else the explicit empty WaveCount
with `labels=[]`, `fib_retracements=[]`, `fib_extensions=[]`, `score=0` and
a templated summary — never an absent field (the model's `alternate` is a
total `WaveCount`, so absence is impossible by type). -/
theorem selector_spec (scored : List ScoredCand) (hne : scored ≠ []) :
    ∃ p, pickBest scored = some p ∧ p ∈ scored ∧
      (∀ c ∈ scored,
        c.score ≤ p.score ∧
        (c.score = p.score → p.startIdx ≤ c.startIdx ∧
          (c.startIdx = p.startIdx → p.span ≤ c.span))) ∧
      ((scored.filter fun c => decide (c.cand.ptype ≠ p.cand.ptype)) ≠ [] →
        ∃ a, pickAlternate scored p = some a ∧
          a ∈ (scored.filter fun c => decide (c.cand.ptype ≠ p.cand.ptype)) ∧
          ∀ c ∈ (scored.filter fun c => decide (c.cand.ptype ≠ p.cand.ptype)),
            c.score ≤ a.score) ∧
      ((scored.filter fun c => decide (c.cand.ptype ≠ p.cand.ptype)) = [] →
        (scored.filter fun c =>
          decide (c.cand.ptype = p.cand.ptype ∧ c.startIdx ≠ p.startIdx)) ≠ [] →
        ∃ a, pickAlternate scored p = some a ∧
          a ∈ (scored.filter fun c =>
            decide (c.cand.ptype = p.cand.ptype ∧ c.startIdx ≠ p.startIdx)) ∧
          ∀ c ∈ (scored.filter fun c =>
            decide (c.cand.ptype = p.cand.ptype ∧ c.startIdx ≠ p.startIdx)),
            c.score ≤ a.score) ∧
      ((scored.filter fun c => decide (c.cand.ptype ≠ p.cand.ptype)) = [] →
        (scored.filter fun c =>
          decide (c.cand.ptype = p.cand.ptype ∧ c.startIdx ≠ p.startIdx)) = [] →
        pickAlternate scored p = none ∧
        (pickAlternate scored p).elim noAlternateCount toWaveCount =
          noAlternateCount ∧
        noAlternateCount.labels = [] ∧
        noAlternateCount.fib_retracements = [] ∧
        noAlternateCount.fib_extensions = [] ∧
        noAlternateCount.score = 0 ∧
        noAlternateCount.summary = "No alternate interpretation was found") := by
  obtain ⟨c0, t0, rfl⟩ : ∃ c0 t0, scored = c0 :: t0 := by
    cases scored with
    | nil => exact absurd rfl hne
    | cons c0 t0 => exact ⟨c0, t0, rfl⟩
  refine ⟨(t0.foldl (fun best x => if Better x best then x else best) c0),
    rfl, ?_, ?_, ?_, ?_, ?_⟩
  all_goals
    obtain ⟨hmem, hmax⟩ := pickBest_spec (c0 :: t0) _ rfl
  · exact hmem
  · exact fun c hc => not_better_unpack (hmax c hc)
  · intro hothers
    rcases hoth : pickBest ((c0 :: t0).filter fun c =>
        decide (c.cand.ptype ≠ (t0.foldl (fun best x => if Better x best then x else best) c0).cand.ptype)) with _ | a
    · exact absurd (pickBest_eq_none.1 hoth) hothers
    · obtain ⟨ha1, ha2⟩ := pickBest_spec _ a hoth
      refine ⟨a, ?_, ha1, fun c hc => (not_better_unpack (ha2 c hc)).1⟩
      unfold pickAlternate
      rw [hoth]
  · intro hothers hsame
    have hoth : pickBest ((c0 :: t0).filter fun c =>
        decide (c.cand.ptype ≠ (t0.foldl (fun best x => if Better x best then x else best) c0).cand.ptype)) = none := by
      rw [pickBest_eq_none]; exact hothers
    rcases hsd : pickBest ((c0 :: t0).filter fun c =>
        decide (c.cand.ptype = (t0.foldl (fun best x => if Better x best then x else best) c0).cand.ptype ∧
          c.startIdx ≠ (t0.foldl (fun best x => if Better x best then x else best) c0).startIdx)) with _ | a
    · exact absurd (pickBest_eq_none.1 hsd) hsame
    · obtain ⟨ha1, ha2⟩ := pickBest_spec _ a hsd
      refine ⟨a, ?_, ha1, fun c hc => (not_better_unpack (ha2 c hc)).1⟩
      unfold pickAlternate
      rw [hoth, hsd]
  · intro hothers hsame
    have hoth : pickBest ((c0 :: t0).filter fun c =>
        decide (c.cand.ptype ≠ (t0.foldl (fun best x => if Better x best then x else best) c0).cand.ptype)) = none := by
      rw [pickBest_eq_none]; exact hothers
    have hsd : pickBest ((c0 :: t0).filter fun c =>
        decide (c.cand.ptype = (t0.foldl (fun best x => if Better x best then x else best) c0).cand.ptype ∧
          c.startIdx ≠ (t0.foldl (fun best x => if Better x best then x else best) c0).startIdx)) = none := by
      rw [pickBest_eq_none]; exact hsame
    have hnone : pickAlternate (c0 :: t0)
        (t0.foldl (fun best x => if Better x best then x else best) c0) = none := by
      unfold pickAlternate
      rw [hoth, hsd]
    exact ⟨hnone, by simp [hnone], rfl, rfl, rfl, rfl, rfl⟩

/-- Witness for C5 at a concrete two-candidate scored set. -/
theorem selector_spec_witness :
    ∃ p, pickBest wScored = some p ∧ p ∈ wScored ∧
      (∀ c ∈ wScored,
        c.score ≤ p.score ∧
        (c.score = p.score → p.startIdx ≤ c.startIdx ∧
          (c.startIdx = p.startIdx → p.span ≤ c.span))) ∧
      ((wScored.filter fun c => decide (c.cand.ptype ≠ p.cand.ptype)) ≠ [] →
        ∃ a, pickAlternate wScored p = some a ∧
          a ∈ (wScored.filter fun c => decide (c.cand.ptype ≠ p.cand.ptype)) ∧
          ∀ c ∈ (wScored.filter fun c => decide (c.cand.ptype ≠ p.cand.ptype)),
            c.score ≤ a.score) ∧
      ((wScored.filter fun c => decide (c.cand.ptype ≠ p.cand.ptype)) = [] →
        (wScored.filter fun c =>
          decide (c.cand.ptype = p.cand.ptype ∧ c.startIdx ≠ p.startIdx)) ≠ [] →
        ∃ a, pickAlternate wScored p = some a ∧
          a ∈ (wScored.filter fun c =>
            decide (c.cand.ptype = p.cand.ptype ∧ c.startIdx ≠ p.startIdx)) ∧
          ∀ c ∈ (wScored.filter fun c =>
            decide (c.cand.ptype = p.cand.ptype ∧ c.startIdx ≠ p.startIdx)),
            c.score ≤ a.score) ∧
      ((wScored.filter fun c => decide (c.cand.ptype ≠ p.cand.ptype)) = [] →
        (wScored.filter fun c =>
          decide (c.cand.ptype = p.cand.ptype ∧ c.startIdx ≠ p.startIdx)) = [] →
        pickAlternate wScored p = none ∧
        (pickAlternate wScored p).elim noAlternateCount toWaveCount =
          noAlternateCount ∧
        noAlternateCount.labels = [] ∧
        noAlternateCount.fib_retracements = [] ∧
        noAlternateCount.fib_extensions = [] ∧
        noAlternateCount.score = 0 ∧
        noAlternateCount.summary = "No alternate interpretation was found") :=
  selector_spec wScored (by simp [wScored])

/-- C6: when both candidate sets are empty — for example when the input
yields fewer than 2 pivots — `analyze` does not raise: it returns the
NoPatternFound result whose Primary and Alternate are empty WaveCounts with
score 0 and an explanatory summary, alongside the full pivot list. -/
theorem analyze_no_pattern (bars : List Bar) (pct : ℚ)
    (hlen : 2 ≤ bars.length) (hpos : 0 < pct) (hle : pct ≤ 100)
    (himp : enumImpulse (zigzagRun bars pct) = [])
    (hcor : enumCorrective (zigzagRun bars pct) = []) :
    analyze bars pct =
      .ok ⟨noPatternCount, noAlternateCount, zigzagRun bars pct⟩ ∧
    noPatternCount.labels = [] ∧ noPatternCount.score = 0 ∧
    noAlternateCount.labels = [] ∧ noAlternateCount.score = 0 ∧
    noPatternCount.summary = "No Elliott Wave pattern found" ∧
    noAlternateCount.summary = "No alternate interpretation was found" := by
  refine ⟨?_, rfl, rfl, rfl, rfl, rfl, rfl⟩
  unfold analyze
  rw [(detect_pivots_error_conditions bars pct).2.2 hlen hpos hle]
  have hsc : scoredCandidates (zigzagRun bars pct) = [] := by
    unfold scoredCandidates
    rw [himp, hcor]
    rfl
  show Except.ok
    (assembleResult (zigzagRun bars pct)
      (scoredCandidates (zigzagRun bars pct))) = _
  rw [hsc]
  rfl

/-- Witness for C6 at spec scenario B: a strictly rising series below the
threshold. -/
theorem analyze_no_pattern_witness :
    analyze wBarsRising 50 =
      .ok ⟨noPatternCount, noAlternateCount, zigzagRun wBarsRising 50⟩ ∧
    noPatternCount.labels = [] ∧ noPatternCount.score = 0 ∧
    noAlternateCount.labels = [] ∧ noAlternateCount.score = 0 ∧
    noPatternCount.summary = "No Elliott Wave pattern found" ∧
    noAlternateCount.summary = "No alternate interpretation was found" :=
  analyze_no_pattern wBarsRising 50 (by norm_num [wBarsRising]) (by norm_num)
    (by norm_num)
    (by
      have h : zigzagRun wBarsRising 50 = [] := by
        norm_num [zigzagRun, zigzagStep, List.enumFrom, wBarsRising]
      rw [h]
      rfl)
    (by
      have h : zigzagRun wBarsRising 50 = [] := by
        norm_num [zigzagRun, zigzagStep, List.enumFrom, wBarsRising]
      rw [h]
      rfl)

theorem assembleResult_none {ps : List Pivot} {scored : List ScoredCand}
    (hp : pickBest scored = none) :
    assembleResult ps scored = ⟨noPatternCount, noAlternateCount, ps⟩ := by
  unfold assembleResult
  rw [hp]

theorem assembleResult_some {ps : List Pivot} {scored : List ScoredCand}
    {p : ScoredCand} (hp : pickBest scored = some p) :
    assembleResult ps scored =
      ⟨toWaveCount p,
        (pickAlternate scored p).elim noAlternateCount toWaveCount, ps⟩ := by
  unfold assembleResult
  rw [hp]

theorem assembleResult_pivots (ps : List Pivot) (scored : List ScoredCand) :
    (assembleResult ps scored).pivots = ps := by
  cases hp : pickBest scored with
  | none => rw [assembleResult_none hp]
  | some p => rw [assembleResult_some hp]

/-- C8: for every input on which `analyze` succeeds, the `pivots` field of
the result equals the entire pivot sequence produced by the Pivot Detector
for that input, unchanged by enumeration, scoring and selection. -/
theorem analyze_pivots_frame (bars : List Bar) (pct : ℚ) (r : AnalysisResult)
    (h : analyze bars pct = .ok r) :
    detect_pivots bars pct = .ok r.pivots := by
  unfold analyze at h
  cases hd : detect_pivots bars pct with
  | error e =>
      rw [hd] at h
      exact absurd h (by simp)
  | ok ps =>
      rw [hd] at h
      cases h
      rw [assembleResult_pivots]

/-- Witness for C8 at the concrete swing series. -/
theorem analyze_pivots_frame_witness :
    detect_pivots wBarsSwing 10 =
      .ok (AnalysisResult.mk noPatternCount noAlternateCount wPivotsSwing).pivots :=
  analyze_pivots_frame wBarsSwing 10
    ⟨noPatternCount, noAlternateCount, wPivotsSwing⟩
    (by
      have hz : detect_pivots wBarsSwing 10 = .ok wPivotsSwing := by
        norm_num [detect_pivots, zigzagRun, zigzagStep, List.enumFrom,
          wBarsSwing, wPivotsSwing]
      unfold analyze
      rw [hz]
      rfl)

theorem clamp_bounds (x : ℚ) : 0 ≤ clamp 0 100 x ∧ clamp 0 100 x ≤ 100 :=
  ⟨le_max_left 0 _, max_le (by norm_num) (min_le_left _ _)⟩

theorem invalReason_ne_empty (t : PatternType) (b : Bool) :
    invalReason t b ≠ "" := by
  cases t <;> cases b <;> decide

theorem toWaveCount_reason_nonempty (s : ScoredCand) :
    (toWaveCount s).invalidation.reason ≠ "" := by
  obtain ⟨cand, sc, si, sp⟩ := s
  rcases cand with c | c
  · exact invalReason_ne_empty .impulse _
  · exact invalReason_ne_empty .corrective _

theorem toWaveCount_score (s : ScoredCand) : (toWaveCount s).score = s.score := by
  obtain ⟨cand, sc, si, sp⟩ := s
  rcases cand with c | c <;> rfl

theorem mem_scoredCandidates_score {s : ScoredCand} {ps : List Pivot}
    (h : s ∈ scoredCandidates ps) : 0 ≤ s.score ∧ s.score ≤ 100 := by
  unfold scoredCandidates at h
  rw [List.mem_append] at h
  rcases h with h | h <;> rw [List.mem_map] at h <;> obtain ⟨c, _, rfl⟩ := h <;>
    exact clamp_bounds _

theorem pickAlternate_mem {scored : List ScoredCand} {p a : ScoredCand}
    (h : pickAlternate scored p = some a) : a ∈ scored := by
  unfold pickAlternate at h
  cases hoth : pickBest (scored.filter fun c =>
      decide (c.cand.ptype ≠ p.cand.ptype)) with
  | some x =>
      rw [hoth] at h
      cases h
      exact (List.mem_filter.1 (pickBest_spec _ _ hoth).1).1
  | none =>
      rw [hoth] at h
      exact (List.mem_filter.1 (pickBest_spec _ _ h).1).1

/-- C10: every successfully produced AnalysisResult — including one whose
Alternate is the empty no-alternate WaveCount — carries on both primary and
alternate a numeric score (a rational in `[0,100]`) and an invalidation
value with a non-empty reason string, so the frontend result panel can
dereference `score.toFixed(1)` and `invalidation.reason` on both without a
null guard; in the model both fields are total by type, and the empty
WaveCounts populate them even though the spec's enumeration of the empty
WaveCount's fields omits `invalidation`. -/
theorem result_consumer_fields (bars : List Bar) (pct : ℚ)
    (r : AnalysisResult) (h : analyze bars pct = .ok r) :
    (0 ≤ r.primary.score ∧ r.primary.score ≤ 100) ∧
    (0 ≤ r.alternate.score ∧ r.alternate.score ≤ 100) ∧
    r.primary.invalidation.reason ≠ "" ∧
    r.alternate.invalidation.reason ≠ "" := by
  unfold analyze at h
  cases hd : detect_pivots bars pct with
  | error e =>
      rw [hd] at h
      exact absurd h (by simp)
  | ok ps =>
      rw [hd] at h
      cases h
      cases hp : pickBest (scoredCandidates ps) with
      | none =>
          rw [assembleResult_none hp]
          refine ⟨⟨le_refl 0, by norm_num [noPatternCount]⟩,
            ⟨le_refl 0, by norm_num [noAlternateCount]⟩, ?_, ?_⟩
          · show noPatternCount.invalidation.reason ≠ ""
            decide
          · show noAlternateCount.invalidation.reason ≠ ""
            decide
      | some p =>
          rw [assembleResult_some hp]
          have hpmem := (pickBest_spec _ _ hp).1
          have hpscore := mem_scoredCandidates_score hpmem
          refine ⟨?_, ?_, ?_, ?_⟩
          · show 0 ≤ (toWaveCount p).score ∧ (toWaveCount p).score ≤ 100
            rw [toWaveCount_score]
            exact hpscore
          · cases ha : pickAlternate (scoredCandidates ps) p with
            | none =>
                show 0 ≤ noAlternateCount.score ∧ noAlternateCount.score ≤ 100
                exact ⟨le_refl 0, by norm_num [noAlternateCount]⟩
            | some a =>
                show 0 ≤ (toWaveCount a).score ∧ (toWaveCount a).score ≤ 100
                rw [toWaveCount_score]
                exact mem_scoredCandidates_score (pickAlternate_mem ha)
          · exact toWaveCount_reason_nonempty p
          · cases ha : pickAlternate (scoredCandidates ps) p with
            | none =>
                show noAlternateCount.invalidation.reason ≠ ""
                decide
            | some a => exact toWaveCount_reason_nonempty a

/-- Witness for C10 at spec scenario B, where the Alternate is the empty
no-alternate WaveCount. -/
theorem result_consumer_fields_witness :
    (0 ≤ (AnalysisResult.mk noPatternCount noAlternateCount []).primary.score ∧
      (AnalysisResult.mk noPatternCount noAlternateCount []).primary.score ≤ 100) ∧
    (0 ≤ (AnalysisResult.mk noPatternCount noAlternateCount []).alternate.score ∧
      (AnalysisResult.mk noPatternCount noAlternateCount []).alternate.score ≤ 100) ∧
    (AnalysisResult.mk noPatternCount noAlternateCount []).primary.invalidation.reason ≠ "" ∧
    (AnalysisResult.mk noPatternCount noAlternateCount []).alternate.invalidation.reason ≠ "" :=
  result_consumer_fields wBarsRising 50
    ⟨noPatternCount, noAlternateCount, []⟩
    (by
      have hz : detect_pivots wBarsRising 50 = .ok [] := by
        norm_num [detect_pivots, zigzagRun, zigzagStep, List.enumFrom,
          wBarsRising]
      unfold analyze
      rw [hz]
      rfl)

end ElliottWave
